import Mathlib

/-!
Verification of the fireplace action-resolution and selector subsystem.

The definitions below are shallow embeddings of `src/fireplace/targeting.py`
and `src/fireplace/actions.py`.  Python runtime behaviour is modelled
explicitly: a raised exception becomes an `Option`/`Except` failure, the
shared random source becomes an explicit stream of naturals, and in-place
list mutation during iteration is modelled with the CPython `for`-loop
iterator semantics.  A few helpers that live in files of the repository not
present under `src/` (`entity.py`, the player/card entity methods) are
modelled from the spec and say so in their doc comment.
-/

namespace Fireplace

/-! ## Selector interpreter (targeting.py) -/

/-- Opcodes of a `Selector` program (`Selector` class, targeting.py).
`pred` is an atomic predicate op (an IntEnum member or helper object with a
`test(entity, source)` method); `bAnd`, `bOr`, `bNot` are the boolean ops
`Selector._and`, `Selector._or`, `Selector._not`; `mergeFilter`, `merge`
and `unmerge` are the marker classes; `selectRandom` embeds a
`RandomSelector.SelectRandom` instance (with its `times` and `fallback`
fields) and `selectAdjacent` an `AdjacentSelector.SelectAdjacent`
instance. -/
inductive Op (ε : Type) where
  | pred (p : ε → ε → Bool)
  | bAnd
  | bOr
  | bNot
  | mergeFilter
  | merge
  | unmerge
  | selectRandom (times : Nat) (fallback : Option ε)
  | selectAdjacent

/-- Test for the `MergeFilter` marker
(the `self.program[self.opc] != Selector.MergeFilter` check). -/
def Op.isMergeFilter {ε : Type} : Op ε → Bool
  | .mergeFilter => true
  | _ => false

/-- Whether an op is a per-entity test op (an atomic predicate or a boolean
combinator).  Programs made only of these are the plain, merge-free selector
programs. -/
def Op.isPlainOp {ε : Type} : Op ε → Bool
  | .pred _ => true
  | .bAnd => true
  | .bOr => true
  | .bNot => true
  | _ => false

/-- A program consisting only of per-entity test ops. -/
def isPlain {ε : Type} (p : List (Op ε)) : Bool := p.all Op.isPlainOp

/-- `Selector.test(entity, source)`: run the program as a postfix boolean
expression on a value stack, stopping after the first `Merge` or
`MergeFilter` marker, and return the top of the stack (`stack[-1]`).
The top of the stack is the head of the list here.  `none` models a raised
exception: stack underflow (`IndexError`), or an op that is neither callable
as a boolean op nor a test object (those raise `TypeError` or
`AttributeError` in Python when reached by `test`). -/
def testVal {ε : Type} (e src : ε) : List (Op ε) → List Bool → Option Bool
  | [], stack => stack.head?
  | .merge :: _, stack => stack.head?
  | .mergeFilter :: _, stack => stack.head?
  | .pred p :: rest, stack => testVal e src rest (p e src :: stack)
  | .bAnd :: rest, stack =>
    match stack with
    | a :: b :: s => testVal e src rest ((a && b) :: s)
    | _ => none
  | .bOr :: rest, stack =>
    match stack with
    | a :: b :: s => testVal e src rest ((a || b) :: s)
    | _ => none
  | .bNot :: rest, stack =>
    match stack with
    | a :: s => testVal e src rest ((!a) :: s)
    | _ => none
  | .unmerge :: _, _ => none
  | .selectRandom _ _ :: _, _ => none
  | .selectAdjacent :: _, _ => none

/-- Filtering of the input collection by `Selector.test`, as in
`[e for e in entities if self.test(e, source)]`; `none` when a test
raises. -/
def filterT {ε : Type} (p : List (Op ε)) (src : ε) : List ε → Option (List ε)
  | [] => some []
  | e :: es => do
    let b ← testVal e src p []
    let r ← filterT p src es
    pure (if b then e :: r else r)

/-- Program position after `Selector.test` returns: the suffix following the
first `Merge` or `MergeFilter` marker (the value of `self.pc` after a test),
or `none` when the program ran out without a marker. -/
def testRest {ε : Type} : List (Op ε) → Option (List (Op ε))
  | [] => none
  | .merge :: rest => some rest
  | .mergeFilter :: rest => some rest
  | _ :: rest => testRest rest

/-- Model of `random.sample(l, n)` (sampling without replacement), driven by
an explicit stream of naturals: each draw takes the head of the stream
modulo the current pool size as the picked index and removes the picked
element from the pool.  Every without-replacement outcome is reachable by a
suitable stream, and every stream yields `min n l.length` positions that are
pairwise distinct positions of `l`. -/
def sample {ε : Type} : List Nat → List ε → Nat → List ε × List Nat
  | r, _, 0 => ([], r)
  | r, [], _ + 1 => ([], r)
  | r, x :: xs, n + 1 =>
    let l := x :: xs
    let i := r.headD 0 % l.length
    have hi : i < l.length := Nat.mod_lt _ (Nat.succ_pos xs.length)
    let picked := l.get ⟨i, hi⟩
    let rest := sample (r.drop 1) (l.eraseIdx i) n
    (picked :: rest.1, rest.2)

/-- Merge step of `Selector.eval`: consume the ops after the `Merge` marker
up to `Unmerge`, feeding the (fixed) filtered collection through each
transform and accumulating `merge_output`.  `SelectRandom.merge` returns the
fallback as a singleton when the pool is empty and a fallback is set, else a
random sample of size `min(len(entities), self.times)`;
`SelectAdjacent.merge` expands each member to its adjacent minions (the
adjacency accessor is the explicit `adj` argument).  Any other op in this
position raises in Python (`none`). -/
def mergeRun {ε : Type} (adj : ε → List ε) (input : List ε) :
    List (Op ε) → List ε → List Nat → Option (List ε × List (Op ε) × List Nat)
  | [], acc, r => some (acc, [], r)
  | .unmerge :: rest, acc, r => some (acc, rest, r)
  | .selectRandom n fb :: rest, acc, r =>
    match input, fb with
    | [], some v => mergeRun adj input rest (acc ++ [v]) r
    | _, _ =>
      let s := sample r input (min input.length n)
      mergeRun adj input rest (acc ++ s.1) s.2
  | .selectAdjacent :: rest, acc, r =>
    mergeRun adj input rest (acc ++ (input.map adj).flatten) r
  | _ :: _, _, _ => none

/-- Combinator loop after `Unmerge`: `_or` appends `merge_output` to the
running result, `_and` keeps the result members whose membership in
`merge_output` differs from `negated`, `_not` flips `negated`; any other op
breaks the loop (and is not consumed).  When no combinator ran, the merged
output is unioned in by default (`if not combined: result += merge_output`).
Returns the new running result and the remaining program. -/
def combineRun {ε : Type} [DecidableEq ε] :
    List (Op ε) → List ε → List ε → Bool → Bool → List ε × List (Op ε)
  | [], result, mout, _, combined =>
    (if combined then result else result ++ mout, [])
  | .bOr :: rest, result, mout, neg, _ =>
    combineRun rest (result ++ mout) mout neg true
  | .bAnd :: rest, result, mout, neg, _ =>
    combineRun rest (result.filter fun e => decide (e ∈ mout) != neg) mout neg true
  | .bNot :: rest, result, mout, neg, combined =>
    combineRun rest result mout (!neg) combined
  | op :: rest, result, mout, _, combined =>
    (if combined then result else result ++ mout, op :: rest)

/-- Outer loop of `Selector.eval`, with explicit fuel (each iteration
consumes at least one op of the program, so `program.length + 1` fuel never
runs out).  Follows the source: a non-merge segment adds the `test`-filtered
input to the result and breaks when the program is exhausted; otherwise
(and likewise directly after a `MergeFilter` marker) the merge step filters
the original input by the inner sub-program, runs the transforms up to
`Unmerge`, and combines the merged output into the running result. -/
def evalLoop {ε : Type} [DecidableEq ε] (adj : ε → List ε) (src : ε)
    (entities : List ε) :
    Nat → List (Op ε) → List ε → List Nat → Option (List ε × List Nat)
  | _, [], result, r => some (result, r)
  | 0, _ :: _, _, _ => none
  | fuel + 1, op :: rest, result, r =>
    let seg : List (Op ε) → List ε → Option (List ε × List Nat) :=
      fun prog1 result1 => do
        let minput ← filterT prog1 src entities
        let prog2 := (testRest prog1).getD []
        let (mout, prog3, r2) ← mergeRun adj minput prog2 [] r
        let (result2, prog4) := combineRun prog3 result1 mout false false
        evalLoop adj src entities fuel prog4 result2 r2
    if op.isMergeFilter then
      seg rest result
    else do
      let f ← filterT (op :: rest) src entities
      match testRest (op :: rest) with
      | none => some (result ++ f, r)
      | some prog1 => seg prog1 (result ++ f)

/-- A selector: a flat opcode program (`Selector.program`). -/
structure Sel (ε : Type) where
  program : List (Op ε)

/-- `Selector.__or__`: concatenate the programs and append `_or`
(set union of the per-entity tests). -/
def Sel.or {ε : Type} (a b : Sel ε) : Sel ε :=
  ⟨a.program ++ b.program ++ [.bOr]⟩

/-- `Selector.__add__`: concatenate the programs and append `_and`
(intersection). -/
def Sel.add {ε : Type} (a b : Sel ε) : Sel ε :=
  ⟨a.program ++ b.program ++ [.bAnd]⟩

/-- `Selector.__sub__`: concatenate the programs and append `_not`, `_and`
(set difference). -/
def Sel.sub {ε : Type} (a b : Sel ε) : Sel ε :=
  ⟨a.program ++ b.program ++ [.bNot, .bAnd]⟩

/-- `Selector.eval(entities, source)`: an empty input collection returns
empty immediately (`if not entities: return []`); otherwise the program loop
runs (fuel `program.length + 1` always suffices, as every iteration consumes
at least one op). -/
def Sel.eval {ε : Type} [DecidableEq ε] (s : Sel ε) (adj : ε → List ε)
    (entities : List ε) (src : ε) (r : List Nat) : Option (List ε × List Nat) :=
  match entities with
  | [] => some ([], r)
  | _ :: _ => evalLoop adj src entities (s.program.length + 1) s.program [] r

/-- Program of `SelfSelector` (its `IsSelf.test` is `entity is source`;
object identity is modelled by equality on `ε`). -/
def SelfSelector.sel {ε : Type} [DecidableEq ε] : Sel ε :=
  ⟨[.pred fun e s => decide (e = s)]⟩

/-- `SelfSelector.eval`: overrides the generic eval and returns `[source]`
regardless of the input collection. -/
def SelfSelector.eval {ε : Type} (_entities : List ε) (source : ε) : List ε :=
  [source]

/-- `TargetSelector.eval`: overrides the generic eval and returns
`[source.target]` regardless of the input collection; the `target`
attribute of the source is passed as an explicit value. -/
def TargetSelector.eval {ε : Type} (_entities : List ε) (sourceTarget : ε) :
    List ε :=
  [sourceTarget]

/-- `RandomSelector`: the base selector program and the mutable fields of
its `SelectRandom` op (`times`, `fallback`). -/
structure RandomSel (ε : Type) where
  base : List (Op ε)
  times : Nat
  fallback : Option ε

/-- `RandomSelector.__init__(selector)`: sample size 1, no fallback. -/
def RandomSel.mk1 {ε : Type} (selector : Sel ε) : RandomSel ε :=
  { base := selector.program, times := 1, fallback := none }

/-- Program built by `RandomSelector.__init__`:
`[MergeFilter] + selector.program + [Merge, SelectRandom, Unmerge]`. -/
def RandomSel.program {ε : Type} (R : RandomSel ε) : List (Op ε) :=
  .mergeFilter :: R.base ++ [.merge, .selectRandom R.times R.fallback, .unmerge]

/-- The random selector as a `Sel`, for evaluation through the generic
`Selector.eval` (which `RandomSelector` inherits). -/
def RandomSel.toSel {ε : Type} (R : RandomSel ε) : Sel ε := ⟨R.program⟩

/-- `RandomSelector.__mul__(other)`: a fresh `RandomSelector` over the same
base selector whose sample size is `self.random.times * other` (the fallback
is not copied, exactly as in the source). -/
def RandomSel.mul {ε : Type} (R : RandomSel ε) (other : Nat) : RandomSel ε :=
  { base := R.base, times := R.times * other, fallback := none }

/-- `RandomSelector.__or__(other)`: installs `other` as the `SelectRandom`
fallback on the selector itself and returns `self` (an in-place mutation in
the source, modelled as the same selector with only the fallback field
changed). -/
def RandomSel.or {ε : Type} (R : RandomSel ε) (other : ε) : RandomSel ε :=
  { R with fallback := some other }

/-- Plain-program stack runner: process predicate and boolean ops on the
value stack; any marker or merge op is out of place in a plain program
(`none`).  This is the specification vehicle used to state and prove facts
about merge-free (sub)programs of the interpreter above. -/
def runP {ε : Type} (e src : ε) : List (Op ε) → List Bool → Option (List Bool)
  | [], s => some s
  | .pred p :: rest, s => runP e src rest (p e src :: s)
  | .bAnd :: rest, s =>
    match s with
    | a :: b :: t => runP e src rest ((a && b) :: t)
    | _ => none
  | .bOr :: rest, s =>
    match s with
    | a :: b :: t => runP e src rest ((a || b) :: t)
    | _ => none
  | .bNot :: rest, s =>
    match s with
    | a :: t => runP e src rest ((!a) :: t)
    | _ => none
  | _ :: _, _ => none

/-- Boolean value that a plain program computes for an entity
(its `test` result, with `false` standing in for a raise). -/
def progTest {ε : Type} (p : List (Op ε)) (src e : ε) : Bool :=
  ((runP e src p []).bind List.head?).getD false

/-! ## Action construction and sequence stamps (actions.py, entity.py) -/

/-- Modelled from the spec: `new_order_of_play` is defined in
`fireplace/entity.py`, which is not under `src/`.  The spec describes it as
a process-wide monotonically increasing counter that stamps every Action
instance at creation with a unique, totally-ordered sequence number.  The
counter state is explicit: a call returns the fresh stamp and the advanced
counter. -/
def new_order_of_play (counter : Nat) : Nat × Nat := (counter, counter + 1)

/-- Attribute state of a freshly constructed action: a field is `none` when
the constructor never assigned it (reading it in Python would raise
`AttributeError`). -/
structure ActionSt where
  order_of_play : Option Nat
  times : Option Nat
deriving DecidableEq

/-- `Action.__init__`: assigns `self.order_of_play = new_order_of_play()`
and `self.times = 1`. -/
def Action.init (counter : Nat) : ActionSt × Nat :=
  let oc := new_order_of_play counter
  ({ order_of_play := some oc.1, times := some 1 }, oc.2)

/-- `GameAction.__init__`: overrides `Action.__init__` without calling it;
only `_args` and the declared argument attributes are set, so neither
`order_of_play` nor `times` is ever assigned and the counter does not
advance. -/
def GameAction.init (counter : Nat) : ActionSt × Nat :=
  ({ order_of_play := none, times := none }, counter)

/-- Sequence stamps observed when constructing `n` consecutive `Action`
instances starting from a given counter state. -/
def initRun : Nat → Nat → List Nat
  | _, 0 => []
  | c, n + 1 =>
    let ac := Action.init c
    (ac.1.order_of_play.getD 0) :: initRun ac.2 n

/-! ## Trigger dispatch: broadcast and gather (actions.py) -/

/-- Dispatch phase constant `EventListener.ON = 1`. -/
def EventListener.ON : Nat := 1

/-- Dispatch phase constant `EventListener.AFTER = 2`. -/
def EventListener.AFTER : Nat := 2

/-- A follow-up entry of an `EventListener`: either a declared action reused
verbatim, or a callable producing actions from the matched entity (the
event payload arguments are abstracted into the callable). -/
inductive ActionItem (α : Type) where
  | const (a : α)
  | producer (f : Nat → List α)

/-- An `EventListener` registration: the trigger-pattern class tag (for the
`isinstance(event.trigger, self.__class__)` check), the dispatch phase
(named `at` in the source — a reserved word here), the zone, the single-fire
flag, the outcome of `event.trigger.matches(entity, args)` (abstracted to a
boolean, since the claims quantify over matching registrations), and the
follow-up actions. -/
structure EvListener (α : Type) where
  trigClass : Nat
  phase : Nat
  zone : Nat
  once : Bool
  trigMatches : Bool
  actions : List (ActionItem α)

/-- An entity as seen by the dispatch scan: identity, zone, the
`ignore_events` flag, and its `_events` registration list. -/
structure GEntity (α : Type) where
  id : Nat
  zone : Nat
  ignore_events : Bool
  events : List (EvListener α)

/-- Full match condition of the dispatch scan: zone filter, trigger-pattern
class, phase, and pattern-argument match. -/
def ListenerFires {α : Type} (cls phase : Nat) (ent : GEntity α)
    (e : EvListener α) : Bool :=
  e.zone == ent.zone && e.trigClass == cls && e.phase == phase && e.trigMatches

/-- Follow-up collection of `broadcast`: callables are executed with the
matched entity, declared actions are reused verbatim
(`actions += action(entity, *args)` / `actions.append(action)`). -/
def runItems {α : Type} (entId : Nat) : List (ActionItem α) → List α
  | [] => []
  | .const a :: rest => a :: runItems entId rest
  | .producer f :: rest => f entId ++ runItems entId rest

/-- Scan of one entity's `_events` list in `Action.broadcast`, including the
CPython iterator semantics of `entity._events.remove(event)` executed inside
`for event in entity._events`: removing the current element shifts the list
left, so the registration immediately after a fired single-fire registration
is skipped by this scan (it stays registered but is not examined).  Returns
the fired `(entity id, follow-up actions)` pairs in scan order together with
the final registration list. -/
def scanList {α : Type} (cls phase : Nat) (ent : GEntity α) :
    List (EvListener α) → List (Nat × List α) × List (EvListener α)
  | [] => ([], [])
  | e :: rest =>
    if ListenerFires cls phase ent e then
      if e.once then
        match rest with
        | [] => ([(ent.id, runItems ent.id e.actions)], [])
        | e2 :: rest2 =>
          let s := scanList cls phase ent rest2
          ((ent.id, runItems ent.id e.actions) :: s.1, e2 :: s.2)
      else
        let s := scanList cls phase ent rest
        ((ent.id, runItems ent.id e.actions) :: s.1, e :: s.2)
    else
      let s := scanList cls phase ent rest
      (s.1, e :: s.2)

/-- Per-entity loop of `Action.broadcast` over
`chain(game.hands, game.entities)`: entities with `ignore_events` are
skipped; every other entity's registrations are scanned and each match's
follow-ups are queued immediately.  Returns the updated entities and the
queued `(entity id, actions)` pairs in order. -/
def broadcastList {α : Type} (cls phase : Nat) :
    List (GEntity α) → List (GEntity α) × List (Nat × List α)
  | [] => ([], [])
  | ent :: rest =>
    if ent.ignore_events then
      let s := broadcastList cls phase rest
      (ent :: s.1, s.2)
    else
      let sc := scanList cls phase ent ent.events
      let s := broadcastList cls phase rest
      ({ ent with events := sc.2 } :: s.1, sc.1 ++ s.2)

/-- Game state for dispatch: the hand entities, the play entities, and the
external pending-effects queue (`game.queue_actions` appends to it). -/
structure GameSt (α : Type) where
  hands : List (GEntity α)
  entities : List (GEntity α)
  queued : List (Nat × List α)

/-- `Action.broadcast(game, at, *args)` over a game state. -/
def Action.broadcast {α : Type} (cls phase : Nat) (g : GameSt α) : GameSt α :=
  let h := broadcastList cls phase g.hands
  let e := broadcastList cls phase g.entities
  { hands := h.1, entities := e.1, queued := g.queued ++ h.2 ++ e.2 }

/-- An element Python appends to the `result` list in `Action.gather`.
Non-callable follow-ups are appended as `(entity, action)` pairs; for a
callable follow-up the source does
`result += (entity, action(entity, *args))`, which extends the list with
the entity and the produced action list as two separate elements instead of
appending a pair. -/
inductive GItem (α : Type) where
  | pair (owner : Nat) (a : α)
  | flatOwner (owner : Nat)
  | flatActions (l : List α)

/-- Item collection of `Action.gather` for one registration's follow-ups. -/
def gatherItems {α : Type} (entId : Nat) : List (ActionItem α) → List (GItem α)
  | [] => []
  | .const a :: rest => .pair entId a :: gatherItems entId rest
  | .producer f :: rest =>
    .flatOwner entId :: .flatActions (f entId) :: gatherItems entId rest

/-- Registration scan of `Action.gather`: identical matching and single-fire
removal (mid-iteration) semantics to the broadcast scan, but collecting
items instead of queuing them. -/
def gatherScanList {α : Type} (cls phase : Nat) (ent : GEntity α) :
    List (EvListener α) → List (GItem α) × List (EvListener α)
  | [] => ([], [])
  | e :: rest =>
    if ListenerFires cls phase ent e then
      if e.once then
        match rest with
        | [] => (gatherItems ent.id e.actions, [])
        | e2 :: rest2 =>
          let s := gatherScanList cls phase ent rest2
          (gatherItems ent.id e.actions ++ s.1, e2 :: s.2)
      else
        let s := gatherScanList cls phase ent rest
        (gatherItems ent.id e.actions ++ s.1, e :: s.2)
    else
      let s := gatherScanList cls phase ent rest
      (s.1, e :: s.2)

/-- Per-entity loop of `Action.gather`. -/
def gatherList {α : Type} (cls phase : Nat) :
    List (GEntity α) → List (GItem α) × List (GEntity α)
  | [] => ([], [])
  | ent :: rest =>
    if ent.ignore_events then
      let s := gatherList cls phase rest
      (s.1, ent :: s.2)
    else
      let sc := gatherScanList cls phase ent ent.events
      let s := gatherList cls phase rest
      (sc.1 ++ s.1, { ent with events := sc.2 } :: s.2)

/-- Evaluation of the sort key expression in
`result.sort(key = x[1].order_of_play)` (`Action.gather`, actions.py line
211): the name `x` is not defined anywhere in scope, so building the keyword
argument raises `NameError` before any sorting can happen. -/
def gatherSortKey (α : Type) : Except String (GItem α → Nat) :=
  .error "NameError: name x is not defined"

/-- `Action.gather(game, at, *args)`: scans and collects over
`chain(game.hands, game.entities)`, then evaluates
`result.sort(key = x[1].order_of_play)`, whose key expression raises
`NameError`; the collected result is never returned. -/
def Action.gather {α : Type} (cls phase : Nat) (g : GameSt α) :
    Except String (List (GItem α)) := do
  let h := gatherList cls phase g.hands
  let e := gatherList cls phase g.entities
  let result := h.1 ++ e.1
  let _ ← gatherSortKey α
  pure result

/-- Class tag standing for the `Death` action class in trigger patterns. -/
def deathClass : Nat := 3

/-- Death-consequence path of `Death.do`: broadcast `ON`, then gather the
death-reactive follow-ups.  The gather raises `NameError` on its sort-key
expression, so the consequence list — and the later
`consequences_of_death.sort(key = x[1].order_of_play)` in `Death.do` itself,
which names the same undefined `x` — is never produced. -/
def Death.run {α : Type} (g : GameSt α) : Except String Unit := do
  let g1 := Action.broadcast deathClass EventListener.ON g
  let _ ← Action.gather deathClass EventListener.ON g1
  pure ()

/-! ## Targeted actions (actions.py) -/

/-- `TargetedAction` data for the trigger loop: the repeat count
(`self.times`), the `targets` selector argument as evaluated against the
live game state (`evaluate_selectors`), and the per-target effect
(`self.do`). -/
structure TargetedActionM (σ ε : Type) where
  times : Nat
  targets : σ → List ε
  doAct : σ → ε → σ

/-- One repeat of `TargetedAction.trigger`: resolve the target selector on
the current state, then apply the effect to each resolved target in
order. -/
def TargetedActionM.repeatStep {σ ε : Type} (a : TargetedActionM σ ε)
    (g : σ) : σ :=
  (a.targets g).foldl a.doAct g

/-- Loop of `TargetedAction.trigger`: `for i in range(self.times)`, each
iteration calling `evaluate_selectors` afresh before running the effect on
each resolved target.  Returns the per-repeat resolved target lists (the
observable record of selector resolution) and the final state. -/
def TargetedActionM.triggerLoop {σ ε : Type} (a : TargetedActionM σ ε) :
    Nat → σ → List (List ε) × σ
  | 0, g => ([], g)
  | n + 1, g =>
    let targets := a.targets g
    let g2 := targets.foldl a.doAct g
    let s := a.triggerLoop n g2
    (targets :: s.1, s.2)

/-- `TargetedAction.trigger(source, game)`. -/
def TargetedActionM.trigger {σ ε : Type} (a : TargetedActionM σ ε) (g : σ) :
    List (List ε) × σ :=
  a.triggerLoop a.times g

/-- State after the first `i` repeats of the trigger loop. -/
def TargetedActionM.stateAfter {σ ε : Type} (a : TargetedActionM σ ε)
    (g : σ) (i : Nat) : σ :=
  a.repeatStep^[i] g

/-! ## Heal and Draw (actions.py) -/

/-- Controller attributes read by `Heal.do`. -/
structure Controller where
  healing_double : Nat
  outgoing_healing_adjustment : Bool
deriving DecidableEq

/-- Character attribute read and written by `Heal.do`. -/
structure HealTarget where
  damage : Nat
deriving DecidableEq

/-- Observable outcome of `Heal.do`: the updated target, the `ON` broadcast
payload amount when one was broadcast, and the amount redirected through
`source.hit` when the controller has `outgoing_healing_adjustment`
("healing as damage" in the source).  `source.hit` lives in entity code
outside `src/` and is modelled as the emitted hit amount. -/
structure HealOutcome where
  target : HealTarget
  broadcastOn : Option Nat
  hitEvent : Option Nat
deriving DecidableEq

/-- `Heal.do(source, game, target)`: with the healing-as-damage adjustment
the heal is redirected to `source.hit(target, self.amount)`; otherwise the
amount is multiplied by `healing_double + 1`, clamped by
`min(amount, target.damage)`, and applied and broadcast only when
nonzero. -/
def healDo (ctl : Controller) (amount : Nat) (t : HealTarget) : HealOutcome :=
  if ctl.outgoing_healing_adjustment then
    { target := t, broadcastOn := none, hitEvent := some amount }
  else
    let amt := min (amount * (ctl.healing_double + 1)) t.damage
    if amt ≠ 0 then
      { target := { damage := t.damage - amt }, broadcastOn := some amt,
        hitEvent := none }
    else
      { target := t, broadcastOn := none, hitEvent := none }

/-- A card, identified by its id. -/
structure Card where
  id : Nat
deriving DecidableEq

/-- Player attributes read and written by `Draw.do`: the deck (top of the
deck is the last element, `deck[-1]`), the hand, and the count of fatigue
events taken. -/
structure PlayerSt where
  deck : List Card
  hand : List Card
  fatigueCount : Nat
deriving DecidableEq

/-- Modelled from the spec: `Player.fatigue()` (entity code, not under
`src/`) produces the fatigue game event for drawing from an empty deck;
modelled as recording one fatigue event. -/
def PlayerSt.fatigue (p : PlayerSt) : PlayerSt :=
  { p with fatigueCount := p.fatigueCount + 1 }

/-- Modelled from the spec: `Card.draw()` (card code, not under `src/`)
moves the drawn card from the top of the deck into its controller's
hand. -/
def PlayerSt.drawCard (p : PlayerSt) (c : Card) : PlayerSt :=
  { p with deck := p.deck.dropLast, hand := p.hand ++ [c] }

/-- Result marker of one `Draw.do`. -/
inductive DrawResult where
  | fatigued
  | drew (c : Card)
deriving DecidableEq

/-- `Draw.do(source, game, target)`: an empty deck triggers fatigue and
returns `[]`; otherwise the card on top of the deck (`deck[-1]`) is drawn
and returned. -/
def drawDo (p : PlayerSt) : PlayerSt × DrawResult × List Card :=
  match p.deck.getLast? with
  | none => (p.fatigue, .fatigued, [])
  | some c => (p.drawCard c, .drew c, [c])

/-! ## Concrete instances used by counterexamples and witnesses -/

/-- A single-fire listener that matches the scans below and produces the
action `10`. -/
def onceL1 : EvListener Nat :=
  { trigClass := 1, phase := 1, zone := 1, once := true, trigMatches := true,
    actions := [.const 10] }

/-- A second single-fire listener, also matching, producing the action
`20`. -/
def onceL2 : EvListener Nat :=
  { trigClass := 1, phase := 1, zone := 1, once := true, trigMatches := true,
    actions := [.const 20] }

/-- An entity carrying the two matching single-fire listeners. -/
def onceEnt : GEntity Nat :=
  { id := 0, zone := 1, ignore_events := false, events := [onceL1, onceL2] }

/-- A game whose only entity is `onceEnt`. -/
def onceGame : GameSt Nat :=
  { hands := [], entities := [onceEnt], queued := [] }

/-- A plain always-true selector over naturals. -/
def selTrue : Sel Nat := ⟨[.pred fun _ _ => true]⟩

/-- A random selector with fallback `7` over an always-true base. -/
def c6Rand : RandomSel Nat :=
  { base := [.pred fun _ _ => true], times := 1, fallback := some 7 }

/-- Random selector over the even numbers, sample size 2, no fallback. -/
def c6RandEven : RandomSel Nat :=
  { base := [.pred fun e _ => decide (e % 2 = 0)], times := 2,
    fallback := none }

/-- Random selector over numbers above ten, used to exercise the fallback
path of `RandomSelector.__or__`. -/
def c10Rand : RandomSel Nat :=
  { base := [.pred fun e _ => decide (10 < e)], times := 1, fallback := none }

/-- Plain selector over the even numbers. -/
def c4A : Sel Nat := ⟨[.pred fun e _ => decide (e % 2 = 0)]⟩

/-- Plain selector over the numbers above two. -/
def c4B : Sel Nat := ⟨[.pred fun e _ => decide (2 < e)]⟩

/-- Demonstration targeted action for the repeat-resolution claim: the board
is a list of health values, the selector picks the living (positive) ones,
and the effect deals one damage to the chosen target. -/
def c5Demo : TargetedActionM (List Nat) Nat :=
  { times := 2,
    targets := fun g => g.filter fun x => decide (0 < x),
    doAct := fun g t => g.map fun x => if x == t then x - 1 else x }

/-- A player with an empty deck. -/
def pEmptyDeck : PlayerSt := { deck := [], hand := [], fatigueCount := 0 }

/-- A player with two cards in the deck; card `2` is on top. -/
def pFullDeck : PlayerSt :=
  { deck := [⟨1⟩, ⟨2⟩], hand := [], fatigueCount := 0 }

/-! ## Lemmas about plain (merge-free) programs -/

theorem isPlain_cons {ε : Type} (op : Op ε) (p : List (Op ε)) :
    isPlain (op :: p) = (op.isPlainOp && isPlain p) := by
  simp [isPlain, List.all_cons]

theorem isPlain_append {ε : Type} (p q : List (Op ε)) :
    isPlain (p ++ q) = (isPlain p && isPlain q) := by
  simp [isPlain, List.all_append]

theorem runP_append {ε : Type} (e src : ε) (p q : List (Op ε)) (s : List Bool) :
    runP e src (p ++ q) s = (runP e src p s).bind (runP e src q) := by
  induction p generalizing s with
  | nil => simp [runP]
  | cons op rest ih =>
    cases op with
    | pred f => simpa [runP] using ih _
    | bAnd =>
      match s with
      | [] => simp [runP]
      | [a] => simp [runP]
      | a :: b :: t => simpa [runP] using ih _
    | bOr =>
      match s with
      | [] => simp [runP]
      | [a] => simp [runP]
      | a :: b :: t => simpa [runP] using ih _
    | bNot =>
      match s with
      | [] => simp [runP]
      | a :: t => simpa [runP] using ih _
    | mergeFilter => simp [runP]
    | merge => simp [runP]
    | unmerge => simp [runP]
    | selectRandom n fb => simp [runP]
    | selectAdjacent => simp [runP]

theorem runP_extend {ε : Type} (e src : ε) (p : List (Op ε)) :
    ∀ (s out t : List Bool), runP e src p s = some out →
      runP e src p (s ++ t) = some (out ++ t) := by
  induction p with
  | nil =>
    intro s out t h
    simp [runP] at h ⊢
    rw [h]
  | cons op rest ih =>
    intro s out t h
    cases op with
    | pred f =>
      simp only [runP] at h ⊢
      exact ih _ _ _ h
    | bAnd =>
      match s with
      | [] => simp [runP] at h
      | [a] => simp [runP] at h
      | a :: b :: t2 =>
        simp only [runP] at h ⊢
        exact ih _ _ _ h
    | bOr =>
      match s with
      | [] => simp [runP] at h
      | [a] => simp [runP] at h
      | a :: b :: t2 =>
        simp only [runP] at h ⊢
        exact ih _ _ _ h
    | bNot =>
      match s with
      | [] => simp [runP] at h
      | a :: t2 =>
        simp only [runP] at h ⊢
        exact ih _ _ _ h
    | mergeFilter => simp [runP] at h
    | merge => simp [runP] at h
    | unmerge => simp [runP] at h
    | selectRandom n fb => simp [runP] at h
    | selectAdjacent => simp [runP] at h

theorem testVal_plain {ε : Type} (e src : ε) :
    ∀ (p : List (Op ε)) (s : List Bool), isPlain p = true →
      testVal e src p s = (runP e src p s).bind List.head? := by
  intro p
  induction p with
  | nil => intro s hp; simp [testVal, runP]
  | cons op rest ih =>
    intro s hp
    rw [isPlain_cons, Bool.and_eq_true] at hp
    cases op with
    | pred f =>
      simp only [testVal, runP]
      exact ih _ hp.2
    | bAnd =>
      match s with
      | [] => simp [testVal, runP]
      | [a] => simp [testVal, runP]
      | a :: b :: t =>
        simp only [testVal, runP]
        exact ih _ hp.2
    | bOr =>
      match s with
      | [] => simp [testVal, runP]
      | [a] => simp [testVal, runP]
      | a :: b :: t =>
        simp only [testVal, runP]
        exact ih _ hp.2
    | bNot =>
      match s with
      | [] => simp [testVal, runP]
      | a :: t =>
        simp only [testVal, runP]
        exact ih _ hp.2
    | mergeFilter => exact absurd hp.1 (by simp [Op.isPlainOp])
    | merge => exact absurd hp.1 (by simp [Op.isPlainOp])
    | unmerge => exact absurd hp.1 (by simp [Op.isPlainOp])
    | selectRandom n fb => exact absurd hp.1 (by simp [Op.isPlainOp])
    | selectAdjacent => exact absurd hp.1 (by simp [Op.isPlainOp])

theorem testVal_plain_marker {ε : Type} (e src : ε) :
    ∀ (p q : List (Op ε)) (s : List Bool), isPlain p = true →
      testVal e src (p ++ Op.merge :: q) s = (runP e src p s).bind List.head? := by
  intro p
  induction p with
  | nil => intro q s hp; simp [testVal, runP]
  | cons op rest ih =>
    intro q s hp
    rw [isPlain_cons, Bool.and_eq_true] at hp
    cases op with
    | pred f =>
      simp only [List.cons_append, testVal, runP]
      exact ih _ _ hp.2
    | bAnd =>
      match s with
      | [] => simp [testVal, runP]
      | [a] => simp [testVal, runP]
      | a :: b :: t =>
        simp only [List.cons_append, testVal, runP]
        exact ih _ _ hp.2
    | bOr =>
      match s with
      | [] => simp [testVal, runP]
      | [a] => simp [testVal, runP]
      | a :: b :: t =>
        simp only [List.cons_append, testVal, runP]
        exact ih _ _ hp.2
    | bNot =>
      match s with
      | [] => simp [testVal, runP]
      | a :: t =>
        simp only [List.cons_append, testVal, runP]
        exact ih _ _ hp.2
    | mergeFilter => exact absurd hp.1 (by simp [Op.isPlainOp])
    | merge => exact absurd hp.1 (by simp [Op.isPlainOp])
    | unmerge => exact absurd hp.1 (by simp [Op.isPlainOp])
    | selectRandom n fb => exact absurd hp.1 (by simp [Op.isPlainOp])
    | selectAdjacent => exact absurd hp.1 (by simp [Op.isPlainOp])

theorem testRest_plain_append {ε : Type} :
    ∀ (p q : List (Op ε)), isPlain p = true → testRest (p ++ q) = testRest q := by
  intro p
  induction p with
  | nil => intro q _; rfl
  | cons op rest ih =>
    intro q hp
    rw [isPlain_cons, Bool.and_eq_true] at hp
    cases op with
    | pred f => simpa [testRest] using ih q hp.2
    | bAnd => simpa [testRest] using ih q hp.2
    | bOr => simpa [testRest] using ih q hp.2
    | bNot => simpa [testRest] using ih q hp.2
    | mergeFilter => exact absurd hp.1 (by simp [Op.isPlainOp])
    | merge => exact absurd hp.1 (by simp [Op.isPlainOp])
    | unmerge => exact absurd hp.1 (by simp [Op.isPlainOp])
    | selectRandom n fb => exact absurd hp.1 (by simp [Op.isPlainOp])
    | selectAdjacent => exact absurd hp.1 (by simp [Op.isPlainOp])

theorem testRest_plain_none {ε : Type} (p : List (Op ε)) (hp : isPlain p = true) :
    testRest p = none := by
  have h := testRest_plain_append p [] hp
  simpa using h

theorem filterT_eq {ε : Type} (p : List (Op ε)) (src : ε) (f : ε → Bool) :
    ∀ l : List ε, (∀ x ∈ l, testVal x src p [] = some (f x)) →
      filterT p src l = some (l.filter f) := by
  intro l
  induction l with
  | nil => intro _; simp [filterT]
  | cons x xs ih =>
    intro h
    have hx : testVal x src p [] = some (f x) := h x (by simp)
    have hxs := ih fun y hy => h y (List.mem_cons_of_mem _ hy)
    rw [List.filter_cons]
    cases hfx : f x with
    | false => simp [filterT, hx, hxs, hfx]
    | true => simp [filterT, hx, hxs, hfx]

theorem evalLoop_plain {ε : Type} [DecidableEq ε] (adj : ε → List ε) (src : ε)
    (entities : List ε) (fuel : Nat) (op : Op ε) (rest : List (Op ε))
    (result : List ε) (r : List Nat) (f : ε → Bool)
    (hp : isPlain (op :: rest) = true)
    (hf : ∀ x ∈ entities, testVal x src (op :: rest) [] = some (f x)) :
    evalLoop adj src entities (fuel + 1) (op :: rest) result r =
      some (result ++ entities.filter f, r) := by
  have hp' := hp
  rw [isPlain_cons, Bool.and_eq_true] at hp'
  have hop : op.isMergeFilter = false := by
    cases op with
    | mergeFilter => exact absurd hp'.1 (by simp [Op.isPlainOp])
    | pred f0 => rfl
    | bAnd => rfl
    | bOr => rfl
    | bNot => rfl
    | merge => rfl
    | unmerge => rfl
    | selectRandom n fb => rfl
    | selectAdjacent => rfl
  have h1 := filterT_eq (op :: rest) src f entities hf
  have h2 : testRest (op :: rest) = none := testRest_plain_none _ hp
  simp [evalLoop, hop, h1, h2]

theorem Sel.eval_plain {ε : Type} [DecidableEq ε] (s : Sel ε) (adj : ε → List ε)
    (entities : List ε) (src : ε) (r : List Nat) (f : ε → Bool)
    (hp : isPlain s.program = true) (hne : s.program ≠ [])
    (hf : ∀ x ∈ entities, testVal x src s.program [] = some (f x)) :
    s.eval adj entities src r = some (entities.filter f, r) := by
  obtain ⟨op, rest, hpr⟩ : ∃ op rest, s.program = op :: rest := by
    cases hpp : s.program with
    | nil => exact absurd hpp hne
    | cons a l => exact ⟨a, l, rfl⟩
  cases entities with
  | nil => simp [Sel.eval]
  | cons e es =>
    show evalLoop adj src (e :: es) (s.program.length + 1) s.program [] r = _
    rw [hpr]
    rw [show (op :: rest).length + 1 = (rest.length + 1) + 1 from rfl]
    rw [evalLoop_plain adj src (e :: es) (rest.length + 1) op rest [] r f
      (hpr ▸ hp) (fun x hx => by rw [← hpr]; exact hf x hx)]
    simp

/-! ## Composite test values for union and difference programs -/

theorem testVal_or_comp {ε : Type} (e src : ε) (A B : List (Op ε)) (a b : Bool)
    (hpA : isPlain A = true) (hpB : isPlain B = true)
    (ha : runP e src A [] = some [a]) (hb : runP e src B [] = some [b]) :
    testVal e src (A ++ B ++ [Op.bOr]) [] = some (b || a) := by
  have hp : isPlain (A ++ B ++ [Op.bOr]) = true := by
    rw [isPlain_append, isPlain_append, hpA, hpB]
    rfl
  rw [testVal_plain e src _ _ hp]
  rw [runP_append, runP_append, ha, Option.some_bind]
  have h2 : runP e src B [a] = some [b, a] := by
    have h := runP_extend e src B [] [b] [a] hb
    simpa using h
  rw [h2, Option.some_bind]
  rfl

theorem testVal_sub_comp {ε : Type} (e src : ε) (A B : List (Op ε)) (a b : Bool)
    (hpA : isPlain A = true) (hpB : isPlain B = true)
    (ha : runP e src A [] = some [a]) (hb : runP e src B [] = some [b]) :
    testVal e src (A ++ B ++ [Op.bNot, Op.bAnd]) [] = some (!b && a) := by
  have hp : isPlain (A ++ B ++ [Op.bNot, Op.bAnd]) = true := by
    rw [isPlain_append, isPlain_append, hpA, hpB]
    rfl
  rw [testVal_plain e src _ _ hp]
  rw [runP_append, runP_append, ha, Option.some_bind]
  have h2 : runP e src B [a] = some [b, a] := by
    have h := runP_extend e src B [] [b] [a] hb
    simpa using h
  rw [h2, Option.some_bind]
  rfl

/-! ## Sample lemmas -/

theorem sample_length {ε : Type} :
    ∀ (n : Nat) (r : List Nat) (l : List ε),
      (sample r l n).1.length = min n l.length := by
  intro n
  induction n with
  | zero => intro r l; simp [sample]
  | succ n ih =>
    intro r l
    cases l with
    | nil => simp [sample]
    | cons x xs =>
      have hi : r.headD 0 % (xs.length + 1) < xs.length + 1 :=
        Nat.mod_lt _ (Nat.succ_pos xs.length)
      simp only [sample, List.length_cons, ih, List.length_eraseIdx]
      rw [if_pos hi]
      omega

theorem sample_mem {ε : Type} :
    ∀ (n : Nat) (r : List Nat) (l : List ε) (y : ε),
      y ∈ (sample r l n).1 → y ∈ l := by
  intro n
  induction n with
  | zero => intro r l y h; simp [sample] at h
  | succ n ih =>
    intro r l y h
    cases l with
    | nil => simp [sample] at h
    | cons x xs =>
      simp only [sample, List.mem_cons] at h
      rcases h with h | h
      · rw [h]; exact List.get_mem _ _ _
      · exact (List.eraseIdx_sublist _ _).subset (ih _ _ _ h)

theorem get_not_mem_eraseIdx {ε : Type} :
    ∀ (l : List ε) (i : Nat) (h : i < l.length), l.Nodup →
      l.get ⟨i, h⟩ ∉ l.eraseIdx i := by
  intro l
  induction l with
  | nil => intro i h; simp at h
  | cons x xs ih =>
    intro i h hnd
    cases i with
    | zero =>
      simp only [List.eraseIdx, List.get]
      exact (List.nodup_cons.mp hnd).1
    | succ i =>
      simp only [List.eraseIdx, List.get]
      intro hmem
      rcases List.mem_cons.mp hmem with h1 | h2
      · exact (List.nodup_cons.mp hnd).1 (h1 ▸ List.get_mem _ _ _)
      · exact ih i _ (List.nodup_cons.mp hnd).2 h2

theorem sample_nodup {ε : Type} :
    ∀ (n : Nat) (r : List Nat) (l : List ε), l.Nodup →
      (sample r l n).1.Nodup := by
  intro n
  induction n with
  | zero => intro r l _; simp [sample]
  | succ n ih =>
    intro r l hnd
    cases l with
    | nil => simp [sample]
    | cons x xs =>
      simp only [sample, List.nodup_cons]
      constructor
      · intro hmem
        have h1 := sample_mem n (r.drop 1) ((x :: xs).eraseIdx (r.headD 0 % (x :: xs).length)) _ hmem
        exact get_not_mem_eraseIdx (x :: xs) _ _ hnd h1
      · exact ih _ _ ((List.eraseIdx_sublist _ _).nodup hnd)

/-! ## Evaluation of a random-selector program -/

theorem evalLoop_rand_fb {ε : Type} [DecidableEq ε] (adj : ε → List ε) (src : ε)
    (entities : List ε) (fuel : Nat) (base : List (Op ε)) (n : Nat)
    (v : ε) (r : List Nat) (f : ε → Bool)
    (hp : isPlain base = true)
    (hf : ∀ x ∈ entities,
      testVal x src (base ++ [Op.merge, Op.selectRandom n (some v), Op.unmerge]) []
        = some (f x))
    (hfe : entities.filter f = []) :
    evalLoop adj src entities (fuel + 1)
        (Op.mergeFilter ::
          (base ++ [Op.merge, Op.selectRandom n (some v), Op.unmerge]))
        [] r = some ([v], r) := by
  have h1 : filterT (base ++ [Op.merge, Op.selectRandom n (some v), Op.unmerge])
      src entities = some (entities.filter f) :=
    filterT_eq _ src f entities hf
  have h2 : testRest (base ++ [Op.merge, Op.selectRandom n (some v), Op.unmerge])
      = some [Op.selectRandom n (some v), Op.unmerge] := by
    rw [testRest_plain_append _ _ hp]
    rfl
  simp [evalLoop, Op.isMergeFilter, h1, hfe, h2, mergeRun, combineRun]

theorem evalLoop_rand_sample {ε : Type} [DecidableEq ε] (adj : ε → List ε)
    (src : ε) (entities : List ε) (fuel : Nat) (base : List (Op ε)) (n : Nat)
    (fb : Option ε) (r : List Nat) (f : ε → Bool)
    (hp : isPlain base = true)
    (hf : ∀ x ∈ entities,
      testVal x src (base ++ [Op.merge, Op.selectRandom n fb, Op.unmerge]) []
        = some (f x))
    (hcase : entities.filter f = [] → fb = none) :
    evalLoop adj src entities (fuel + 1)
        (Op.mergeFilter :: (base ++ [Op.merge, Op.selectRandom n fb, Op.unmerge]))
        [] r =
      some (sample r (entities.filter f) (min (entities.filter f).length n)) := by
  have h1 : filterT (base ++ [Op.merge, Op.selectRandom n fb, Op.unmerge]) src
      entities = some (entities.filter f) :=
    filterT_eq _ src f entities hf
  have h2 : testRest (base ++ [Op.merge, Op.selectRandom n fb, Op.unmerge])
      = some [Op.selectRandom n fb, Op.unmerge] := by
    rw [testRest_plain_append _ _ hp]
    rfl
  cases hfe : entities.filter f with
  | nil =>
    rw [hcase hfe]
    rw [hcase hfe] at h1 h2
    simp [evalLoop, Op.isMergeFilter, h1, hfe, h2, mergeRun, sample, combineRun]
  | cons y ys =>
    simp [evalLoop, Op.isMergeFilter, h1, hfe, h2, mergeRun, combineRun]

theorem randTestVal {ε : Type} (src : ε) (base : List (Op ε)) (n : Nat)
    (fb : Option ε) (entities : List ε)
    (hp : isPlain base = true)
    (hb : ∀ e ∈ entities, ∃ v, runP e src base [] = some [v]) :
    ∀ x ∈ entities,
      testVal x src (base ++ [Op.merge, Op.selectRandom n fb, Op.unmerge]) []
        = some (progTest base src x) := by
  intro x hx
  obtain ⟨v, hv⟩ := hb x hx
  have hm := testVal_plain_marker x src base
    [Op.selectRandom n fb, Op.unmerge] [] hp
  rw [hm, hv]
  simp [progTest, hv]

theorem Sel.eval_rand_fb {ε : Type} [DecidableEq ε] (R : RandomSel ε)
    (adj : ε → List ε) (entities : List ε) (src : ε) (r : List Nat) (v : ε)
    (hp : isPlain R.base = true) (hne : entities ≠ [])
    (hb : ∀ e ∈ entities, ∃ w, runP e src R.base [] = some [w])
    (hv : R.fallback = some v)
    (hfe : entities.filter (progTest R.base src) = []) :
    R.toSel.eval adj entities src r = some ([v], r) := by
  have hf := randTestVal src R.base R.times R.fallback entities hp hb
  rw [hv] at hf
  cases entities with
  | nil => exact absurd rfl hne
  | cons e es =>
    show evalLoop adj src (e :: es) (R.program.length + 1) R.program [] r = _
    have hprog : R.program =
        Op.mergeFilter ::
          (R.base ++ [Op.merge, Op.selectRandom R.times (some v), Op.unmerge]) := by
      simp [RandomSel.program, hv]
    rw [hprog]
    exact evalLoop_rand_fb adj src (e :: es) _ R.base R.times v r
      (progTest R.base src) hp hf hfe

theorem Sel.eval_rand_sample {ε : Type} [DecidableEq ε] (R : RandomSel ε)
    (adj : ε → List ε) (entities : List ε) (src : ε) (r : List Nat)
    (hp : isPlain R.base = true) (hne : entities ≠ [])
    (hb : ∀ e ∈ entities, ∃ w, runP e src R.base [] = some [w])
    (hcase : entities.filter (progTest R.base src) = [] → R.fallback = none) :
    R.toSel.eval adj entities src r =
      some (sample r (entities.filter (progTest R.base src))
        (min (entities.filter (progTest R.base src)).length R.times)) := by
  have hf := randTestVal src R.base R.times R.fallback entities hp hb
  cases entities with
  | nil => exact absurd rfl hne
  | cons e es =>
    show evalLoop adj src (e :: es) (R.program.length + 1) R.program [] r = _
    exact evalLoop_rand_sample adj src (e :: es) _ R.base R.times R.fallback r
      (progTest R.base src) hp hf hcase

/-! ## Sequence-stamp lemmas -/

theorem initRun_mem_le : ∀ (n c y : Nat), y ∈ initRun c n → c ≤ y := by
  intro n
  induction n with
  | zero => intro c y h; simp [initRun] at h
  | succ n ih =>
    intro c y h
    simp only [initRun, Action.init, new_order_of_play, List.mem_cons] at h
    rcases h with h | h
    · simp [h]
    · have := ih (c + 1) y h
      omega

theorem initRun_pairwise : ∀ (n c : Nat), (initRun c n).Pairwise (· < ·) := by
  intro n
  induction n with
  | zero => intro c; simp [initRun]
  | succ n ih =>
    intro c
    simp only [initRun, Action.init, new_order_of_play]
    refine List.Pairwise.cons ?_ (ih (c + 1))
    intro y hy
    have := initRun_mem_le n (c + 1) y hy
    simp only [Option.getD_some]
    omega

/-! ## Trigger-loop lemma -/

theorem triggerLoop_get {σ ε : Type} (a : TargetedActionM σ ε) :
    ∀ (n i : Nat) (g : σ), i < n →
      (a.triggerLoop n g).1.get? i = some (a.targets (a.stateAfter g i)) := by
  intro n
  induction n with
  | zero => intro i g h; omega
  | succ n ih =>
    intro i g h
    cases i with
    | zero =>
      simp [TargetedActionM.triggerLoop, TargetedActionM.stateAfter]
    | succ i =>
      have hstep := ih i ((a.targets g).foldl a.doAct g) (by omega)
      simp only [TargetedActionM.triggerLoop, List.get?_cons_succ]
      rw [hstep]
      have : a.stateAfter g (i + 1)
          = a.stateAfter ((a.targets g).foldl a.doAct g) i := by
        show a.repeatStep^[i + 1] g = a.repeatStep^[i] (a.repeatStep g)
        exact Function.iterate_succ_apply a.repeatStep i g
      rw [this]

/-! ## Claim C1 -/

/-- C1 (code_bug): the claim says every gather dispatch (including the
death-consequence path in `Death`) returns its `(owning entity, resulting
effect)` pairs sorted ascending by sequence stamp.  The code cannot return
anything: the sort key in `result.sort(key = x[1].order_of_play)` names the
undefined `x`, so every gather call — and `Death.do`, whose own
`consequences_of_death.sort` repeats the same undefined name — raises
`NameError` instead of returning a sorted list.  The spec's design notes
flag this undefined reference as a latent defect and prescribe the sorted
behaviour, so the claim is right and the code is wrong. -/
theorem c1_gather_death_raise (cls phase : Nat) (g g2 : GameSt Nat) :
    Action.gather cls phase g
        = Except.error "NameError: name x is not defined" ∧
      Death.run g2 = Except.error "NameError: name x is not defined" :=
  ⟨rfl, rfl⟩

/-! ## Claim C2 -/

/-- C2 counterexample: constructing a `GameAction` (the `__init__` override
shared by `Attack`, `Play`, `Death`, ...) never assigns `order_of_play`,
refuting "every Action instance (including game-level actions) is assigned
a sequence stamp exactly once, at construction". -/
theorem c2_counterexample :
    (GameAction.init 0).1.order_of_play = none ∧
      ¬ (GameAction.init 0).1.order_of_play = some (new_order_of_play 0).1 := by
  refine ⟨rfl, ?_⟩
  decide

/-- C2 (amended): a plain `Action.__init__` assigns the sequence stamp
exactly once, at construction, from the global counter, and the stamps of
consecutive constructions are strictly increasing and pairwise distinct
(spec-modelled counter, `entity.py` is not under `src/`); but
`GameAction.__init__` overrides the constructor without calling it, so
game-level actions such as `Attack`, `Play` and `Death` are never assigned
a sequence stamp at all. -/
theorem c2_amended_stamps :
    (∀ c : Nat, (Action.init c).1.order_of_play = some c ∧
      (Action.init c).1.times = some 1 ∧ (Action.init c).2 = c + 1) ∧
    (∀ c n : Nat, (initRun c n).Pairwise (· < ·)) ∧
    (∀ c n : Nat, (initRun c n).Nodup) ∧
    (∀ c : Nat, (GameAction.init c).1.order_of_play = none ∧
      (GameAction.init c).1.times = none ∧ (GameAction.init c).2 = c) := by
  refine ⟨fun c => ⟨rfl, rfl, rfl⟩, fun c n => initRun_pairwise n c, ?_,
    fun c => ⟨rfl, rfl, rfl⟩⟩
  intro c n
  exact (initRun_pairwise n c).imp fun h => Nat.ne_of_lt h

/-! ## Claim C3 -/

/-- C3 counterexample: a broadcast over an entity with two matching
single-fire registrations.  The claim says removals are deferred until the
scan completes so that no registration of the scanned collection is skipped;
in the code the first registration's removal happens mid-iteration, so the
second matching registration is skipped by this broadcast — only one
follow-up is queued even though both registrations match. -/
theorem c3_counterexample :
    (Action.broadcast 1 1 onceGame).queued = [(0, [10])] ∧
      (Action.broadcast 1 1 onceGame).entities.map GEntity.events = [[onceL2]] ∧
      ListenerFires 1 1 onceEnt onceL2 = true ∧
      ¬ (Action.broadcast 1 1 onceGame).queued = [(0, [10]), (0, [20])] := by
  refine ⟨rfl, rfl, rfl, ?_⟩
  decide

/-- C3 (amended): a fired single-fire registration is removed immediately,
mid-scan, not after the scan completes; consequently the registration
immediately following it in the same entity's collection is skipped by that
scan (it stays registered and fires on a later scan), while the fired
registration itself is absent from the resulting collection and from all
subsequent scans, so it fires at most once per lifetime. -/
theorem c3_amended_scan {α : Type} (cls phase : Nat) (ent : GEntity α)
    (e1 e2 : EvListener α)
    (h1 : ListenerFires cls phase ent e1 = true) (ho1 : e1.once = true) :
    scanList cls phase ent [e1, e2]
        = ([(ent.id, runItems ent.id e1.actions)], [e2]) ∧
      (ListenerFires cls phase ent e2 = true → e2.once = true →
        scanList cls phase ent [e2]
          = ([(ent.id, runItems ent.id e2.actions)], [])) := by
  constructor
  · simp [scanList, h1, ho1]
  · intro h2 ho2
    simp [scanList, h2, ho2]

/-- C3 witness: the amended scan behaviour at the concrete two-listener
entity. -/
theorem c3_witness :
    scanList 1 1 onceEnt [onceL1, onceL2]
        = ([(onceEnt.id, runItems onceEnt.id onceL1.actions)], [onceL2]) ∧
      (ListenerFires 1 1 onceEnt onceL2 = true → onceL2.once = true →
        scanList 1 1 onceEnt [onceL2]
          = ([(onceEnt.id, runItems onceEnt.id onceL2.actions)], [])) :=
  c3_amended_scan 1 1 onceEnt onceL1 onceL2 rfl rfl

/-! ## Claim C4 -/

/-- C4 counterexample: `SELF` overrides `eval` to return `[source]` even on
an empty input collection, while the generic evaluation of `SELF | B`
(built by the inherited `Selector.__or__`) returns `[]` there; the union
equation fails at entity `0`. -/
theorem c4_counterexample :
    (Sel.or SelfSelector.sel selTrue).eval (fun _ => []) [] 0 [] = some ([], []) ∧
      SelfSelector.eval ([] : List Nat) 0 = [0] ∧
      selTrue.eval (fun _ => []) [] 0 [] = some ([], []) ∧
      ¬ (((0 : Nat) ∈ ([] : List Nat)) ↔
          (0 ∈ SelfSelector.eval ([] : List Nat) 0 ∨ (0 : Nat) ∈ ([] : List Nat))) := by
  refine ⟨rfl, rfl, rfl, ?_⟩
  decide

/-- C4 (amended): for selectors evaluated by the generic program
interpreter — plain, single-value predicate programs, which is every
selector built from the atomic predicate constants by the `+`, `|`, `-`
algebra — `eval(A | B)` is exactly the set union of `eval(A)` and
`eval(B)`, and `eval(A - B)` is exactly `eval(A)` with every member of
`eval(B)` removed, over every input collection.  The claim as stated over
*every* pair of selectors fails for the special-cased selectors (`SELF`,
`TARGET`), whose overridden `eval` ignores the input collection. -/
theorem c4_amended_union_difference {ε : Type} [DecidableEq ε]
    (adj : ε → List ε) (A B : Sel ε) (entities : List ε) (src : ε)
    (r : List Nat)
    (hpA : isPlain A.program = true) (hpB : isPlain B.program = true)
    (hA : ∀ e ∈ entities, ∃ v, runP e src A.program [] = some [v])
    (hB : ∀ e ∈ entities, ∃ v, runP e src B.program [] = some [v]) :
    ∃ outU outD outA outB,
      (A.or B).eval adj entities src r = some (outU, r) ∧
      (A.sub B).eval adj entities src r = some (outD, r) ∧
      A.eval adj entities src r = some (outA, r) ∧
      B.eval adj entities src r = some (outB, r) ∧
      (∀ e, e ∈ outU ↔ (e ∈ outA ∨ e ∈ outB)) ∧
      (∀ e, e ∈ outD ↔ (e ∈ outA ∧ e ∉ outB)) := by
  cases entities with
  | nil =>
    refine ⟨[], [], [], [], ?_, ?_, ?_, ?_, ?_, ?_⟩ <;> simp [Sel.eval]
  | cons e0 es =>
    have hA' : ∀ e ∈ e0 :: es,
        runP e src A.program [] = some [progTest A.program src e] := by
      intro e he
      obtain ⟨v, hv⟩ := hA e he
      have hveq : progTest A.program src e = v := by simp [progTest, hv]
      rw [hveq]
      exact hv
    have hB' : ∀ e ∈ e0 :: es,
        runP e src B.program [] = some [progTest B.program src e] := by
      intro e he
      obtain ⟨v, hv⟩ := hB e he
      have hveq : progTest B.program src e = v := by simp [progTest, hv]
      rw [hveq]
      exact hv
    have hAne : A.program ≠ [] := by
      intro hnil
      obtain ⟨v, hv⟩ := hA e0 (by simp)
      rw [hnil] at hv
      simp [runP] at hv
    have hBne : B.program ≠ [] := by
      intro hnil
      obtain ⟨v, hv⟩ := hB e0 (by simp)
      rw [hnil] at hv
      simp [runP] at hv
    have hfA : ∀ x ∈ e0 :: es,
        testVal x src A.program [] = some (progTest A.program src x) := by
      intro x hx
      rw [testVal_plain x src A.program [] hpA, hA' x hx]
      rfl
    have hfB : ∀ x ∈ e0 :: es,
        testVal x src B.program [] = some (progTest B.program src x) := by
      intro x hx
      rw [testVal_plain x src B.program [] hpB, hB' x hx]
      rfl
    have hevA := Sel.eval_plain A adj (e0 :: es) src r
      (progTest A.program src) hpA hAne hfA
    have hevB := Sel.eval_plain B adj (e0 :: es) src r
      (progTest B.program src) hpB hBne hfB
    have hpU : isPlain (A.or B).program = true := by
      show isPlain (A.program ++ B.program ++ [Op.bOr]) = true
      rw [isPlain_append, isPlain_append, hpA, hpB]
      rfl
    have hUne : (A.or B).program ≠ [] := by
      show A.program ++ B.program ++ [Op.bOr] ≠ []
      simp
    have hfU : ∀ x ∈ e0 :: es, testVal x src (A.or B).program []
        = some (progTest B.program src x || progTest A.program src x) := by
      intro x hx
      exact testVal_or_comp x src A.program B.program _ _ hpA hpB
        (hA' x hx) (hB' x hx)
    have hevU := Sel.eval_plain (A.or B) adj (e0 :: es) src r
      (fun x => progTest B.program src x || progTest A.program src x)
      hpU hUne hfU
    have hpD : isPlain (A.sub B).program = true := by
      show isPlain (A.program ++ B.program ++ [Op.bNot, Op.bAnd]) = true
      rw [isPlain_append, isPlain_append, hpA, hpB]
      rfl
    have hDne : (A.sub B).program ≠ [] := by
      show A.program ++ B.program ++ [Op.bNot, Op.bAnd] ≠ []
      simp
    have hfD : ∀ x ∈ e0 :: es, testVal x src (A.sub B).program []
        = some (!progTest B.program src x && progTest A.program src x) := by
      intro x hx
      exact testVal_sub_comp x src A.program B.program _ _ hpA hpB
        (hA' x hx) (hB' x hx)
    have hevD := Sel.eval_plain (A.sub B) adj (e0 :: es) src r
      (fun x => !progTest B.program src x && progTest A.program src x)
      hpD hDne hfD
    refine ⟨_, _, _, _, hevU, hevD, hevA, hevB, ?_, ?_⟩
    · intro x
      simp only [List.mem_filter, Bool.or_eq_true]
      tauto
    · intro x
      simp only [List.mem_filter, Bool.and_eq_true, Bool.not_eq_true']
      constructor
      · rintro ⟨hx, hb, ha⟩
        exact ⟨⟨hx, ha⟩, fun hcon => by rw [hcon.2] at hb; cases hb⟩
      · rintro ⟨⟨hx, ha⟩, hnb⟩
        refine ⟨hx, ?_, ha⟩
        cases hfb : progTest B.program src x with
        | false => rfl
        | true => exact absurd ⟨hx, hfb⟩ hnb

/-- C4 witness: the amended union and difference equations at the concrete
selectors `c4A` (evens) and `c4B` (above two) on the collection
`[1, 2, 3, 4]`. -/
theorem c4_witness :
    ∃ outU outD outA outB,
      (Sel.or c4A c4B).eval (fun _ => []) [1, 2, 3, 4] 0 [] = some (outU, []) ∧
      (Sel.sub c4A c4B).eval (fun _ => []) [1, 2, 3, 4] 0 [] = some (outD, []) ∧
      c4A.eval (fun _ => []) [1, 2, 3, 4] 0 [] = some (outA, []) ∧
      c4B.eval (fun _ => []) [1, 2, 3, 4] 0 [] = some (outB, []) ∧
      (∀ e, e ∈ outU ↔ (e ∈ outA ∨ e ∈ outB)) ∧
      (∀ e, e ∈ outD ↔ (e ∈ outA ∧ e ∉ outB)) :=
  c4_amended_union_difference (fun _ => []) c4A c4B [1, 2, 3, 4] 0 []
    rfl rfl (fun _ _ => ⟨_, rfl⟩) (fun _ _ => ⟨_, rfl⟩)

/-! ## Claim C5 -/

/-- C5 (confirmed): for a targeted action with repeat count `times`, every
repeat `i` of the trigger loop resolves the target selector afresh against
the game state produced by the previous repeats' effects, immediately
before that repeat's effect runs — never once at construction nor once for
all repeats. -/
theorem c5_fresh_targets {σ ε : Type} (a : TargetedActionM σ ε) (g : σ)
    (i : Nat) (h : i < a.times) :
    (a.trigger g).1.get? i = some (a.targets (a.stateAfter g i)) :=
  triggerLoop_get a a.times i g h

/-- C5 witness: with two repeats on board `[1]`, the second repeat resolves
its targets on the post-first-repeat state (where the minion has died),
giving `[]` rather than the construction-time resolution `[1]`. -/
theorem c5_witness :
    (c5Demo.trigger [1]).1.get? 1
        = some (c5Demo.targets (c5Demo.stateAfter [1] 1)) ∧
      c5Demo.targets (c5Demo.stateAfter [1] 1) = [] ∧
      c5Demo.targets [1] = [1] :=
  ⟨c5_fresh_targets c5Demo [1] 1 (by decide), by decide, by decide⟩

/-! ## Claim C6 -/

/-- C6 counterexample: a random selector with a configured fallback,
evaluated over an empty input collection.  The filtered candidate set has
size `k = 0` and a fallback is set, so the claim requires the fallback
singleton `[7]`; the evaluator's early empty-input return yields `[]`
before the merge step (and hence the fallback) is ever consulted. -/
theorem c6_counterexample :
    c6Rand.fallback = some 7 ∧
      c6Rand.toSel.eval (fun _ => []) [] 0 [] = some ([], []) ∧
      ¬ c6Rand.toSel.eval (fun _ => []) [] 0 [] = some ([7], []) := by
  refine ⟨rfl, rfl, ?_⟩
  decide

/-- C6 (amended): over a *nonempty* input collection, a random selector
requesting `n` samples from the filtered candidate set of size `k` returns
`min(n, k)` members of that set, pairwise distinct whenever the input
collection has no duplicates (sampling without replacement); when `k = 0`
it returns the configured fallback as a singleton if one is set, else the
empty list; and multiplying the selector by `m` produces a selector over
the same base whose sample size is `n * m` (the base selector is not
evaluated `m` times).  Over an *empty* input collection the evaluator
returns empty before the merge step runs, so the fallback is not consulted
there — the one correction to the claim. -/
theorem c6_amended_random {ε : Type} [DecidableEq ε] (R : RandomSel ε)
    (adj : ε → List ε) (entities : List ε) (src : ε) (r : List Nat) (m : Nat)
    (hp : isPlain R.base = true) (hne : entities ≠ [])
    (hb : ∀ e ∈ entities, ∃ v, runP e src R.base [] = some [v]) :
    ∃ out r2,
      R.toSel.eval adj entities src r = some (out, r2) ∧
      (∀ v, entities.filter (progTest R.base src) = [] → R.fallback = some v →
        out = [v] ∧ r2 = r) ∧
      (entities.filter (progTest R.base src) = [] → R.fallback = none →
        out = []) ∧
      (entities.filter (progTest R.base src) ≠ [] →
        out.length
            = min R.times (entities.filter (progTest R.base src)).length ∧
        (∀ y ∈ out, y ∈ entities.filter (progTest R.base src)) ∧
        (entities.Nodup → out.Nodup)) ∧
      (R.mul m).times = R.times * m ∧ (R.mul m).base = R.base := by
  by_cases hfe : entities.filter (progTest R.base src) = []
  · cases hfb : R.fallback with
    | some v =>
      refine ⟨[v], r,
        Sel.eval_rand_fb R adj entities src r v hp hne hb hfb hfe,
        ?_, ?_, ?_, rfl, rfl⟩
      · intro w _ hw
        injection hw with hw
        exact ⟨by rw [hw], rfl⟩
      · intro _ hnone
        cases hnone
      · intro hcon
        exact absurd hfe hcon
    | none =>
      have hev := Sel.eval_rand_sample R adj entities src r hp hne hb
        fun _ => hfb
      rw [hfe] at hev
      refine ⟨_, _, hev, ?_, ?_, ?_, rfl, rfl⟩
      · intro w _ hw
        cases hw
      · intro _ _
        simp [sample]
      · intro hcon
        exact absurd hfe hcon
  · have hev := Sel.eval_rand_sample R adj entities src r hp hne hb
      fun hc => absurd hc hfe
    refine ⟨_, _, hev, ?_, ?_, ?_, rfl, rfl⟩
    · intro w hw
      exact absurd hw hfe
    · intro hw
      exact absurd hw hfe
    · intro _
      refine ⟨?_, ?_, ?_⟩
      · rw [sample_length]
        omega
      · intro y hy
        exact sample_mem _ _ _ _ hy
      · intro hnd
        exact sample_nodup _ _ _ (List.Nodup.filter _ hnd)

/-- C6 witness: the amended random-selector behaviour at the concrete
selector `c6RandEven` (sample size 2 over the evens) on `[1, 2, 3, 4]` with
multiplier 3. -/
theorem c6_witness :
    ∃ out r2,
      c6RandEven.toSel.eval (fun _ => []) [1, 2, 3, 4] 0 [0] = some (out, r2) ∧
      (∀ v, [1, 2, 3, 4].filter (progTest c6RandEven.base 0) = [] →
        c6RandEven.fallback = some v → out = [v] ∧ r2 = [0]) ∧
      ([1, 2, 3, 4].filter (progTest c6RandEven.base 0) = [] →
        c6RandEven.fallback = none → out = []) ∧
      ([1, 2, 3, 4].filter (progTest c6RandEven.base 0) ≠ [] →
        out.length
            = min c6RandEven.times
                ([1, 2, 3, 4].filter (progTest c6RandEven.base 0)).length ∧
        (∀ y ∈ out, y ∈ [1, 2, 3, 4].filter (progTest c6RandEven.base 0)) ∧
        (([1, 2, 3, 4] : List Nat).Nodup → out.Nodup)) ∧
      (c6RandEven.mul 3).times = c6RandEven.times * 3 ∧
      (c6RandEven.mul 3).base = c6RandEven.base :=
  c6_amended_random c6RandEven (fun _ => []) [1, 2, 3, 4] 0 [0] 3 rfl
    (by decide) (fun e _ => ⟨_, rfl⟩)

/-! ## Claim C7 -/

/-- C7 counterexample: with the controller's healing-as-damage adjustment
present, a heal on an undamaged target is redirected to `source.hit` with
the nominal amount — a damage-dealing state change, not a no-op — refuting
the claim's unconditional "undamaged target: no state change and no
broadcast". -/
theorem c7_counterexample :
    healDo { healing_double := 0, outgoing_healing_adjustment := true } 5
        { damage := 0 }
      = { target := { damage := 0 }, broadcastOn := none, hitEvent := some 5 } ∧
      ¬ (healDo { healing_double := 0, outgoing_healing_adjustment := true } 5
          { damage := 0 }).hitEvent = none := by
  refine ⟨rfl, ?_⟩
  decide

/-- C7 (amended): when the controller's healing-as-damage adjustment is
absent, `Heal.do` on an undamaged target changes no state and broadcasts
nothing; otherwise the applied amount is the nominal amount multiplied by
`healing_double + 1` (doubled once when the modifier is set once), clamped
to the target's outstanding damage, and an `ON` notification is broadcast
iff the applied amount is nonzero.  When the adjustment is present the heal
is instead redirected as a hit of the nominal amount, so it is not a no-op
even on undamaged targets — the correction to the claim. -/
theorem c7_amended_heal (ctl : Controller) (amount : Nat) (t : HealTarget)
    (hadj : ctl.outgoing_healing_adjustment = false) :
    (t.damage = 0 →
      healDo ctl amount t
        = { target := t, broadcastOn := none, hitEvent := none }) ∧
    (healDo ctl amount t).target.damage
        = t.damage - min (amount * (ctl.healing_double + 1)) t.damage ∧
    (healDo ctl amount t).broadcastOn
        = (if min (amount * (ctl.healing_double + 1)) t.damage = 0 then none
           else some (min (amount * (ctl.healing_double + 1)) t.damage)) ∧
    (healDo ctl amount t).hitEvent = none := by
  by_cases h0 : min (amount * (ctl.healing_double + 1)) t.damage = 0
  · refine ⟨fun _ => ?_, ?_, ?_, ?_⟩
    · simp [healDo, hadj, h0]
    · simp [healDo, hadj, h0]
    · simp [healDo, hadj, h0]
    · simp [healDo, hadj, h0]
  · refine ⟨fun hdam => ?_, ?_, ?_, ?_⟩
    · exfalso
      apply h0
      simp [hdam]
    · simp [healDo, hadj, h0]
    · simp [healDo, hadj, h0]
    · simp [healDo, hadj, h0]

/-- C7 witness: heal 5 on a target with 3 damage and no modifiers applies
`min(5, 3) = 3` and broadcasts it. -/
theorem c7_witness :
    ((3 : Nat) = 0 →
      healDo ⟨0, false⟩ 5 ⟨3⟩ = ⟨⟨3⟩, none, none⟩) ∧
    (healDo ⟨0, false⟩ 5 ⟨3⟩).target.damage = 3 - min (5 * (0 + 1)) 3 ∧
    (healDo ⟨0, false⟩ 5 ⟨3⟩).broadcastOn
        = (if min (5 * (0 + 1)) 3 = 0 then none
           else some (min (5 * (0 + 1)) 3)) ∧
    (healDo ⟨0, false⟩ 5 ⟨3⟩).hitEvent = none :=
  c7_amended_heal ⟨0, false⟩ 5 ⟨3⟩ rfl

/-! ## Claim C8 -/

/-- C8 (confirmed): `Draw.do` on a player draws the card on top of the deck
(`deck[-1]`) into the hand when the deck is nonempty; on an empty deck it
produces a fatigue event and returns `[]` — a modeled game event, not a
raised error (the function is total and returns normally) and not a silent
empty success (the fatigue event is recorded). -/
theorem c8_draw_fatigue (p : PlayerSt) :
    (p.deck = [] →
      drawDo p = (p.fatigue, DrawResult.fatigued, []) ∧
      (drawDo p).1.fatigueCount = p.fatigueCount + 1) ∧
    (p.deck ≠ [] →
      ∃ c, p.deck.getLast? = some c ∧
        drawDo p = (p.drawCard c, DrawResult.drew c, [c]) ∧
        c ∈ (drawDo p).1.hand) := by
  constructor
  · intro h
    have hl : p.deck.getLast? = none := List.getLast?_eq_none_iff.mpr h
    exact ⟨by simp [drawDo, hl], by simp [drawDo, hl, PlayerSt.fatigue]⟩
  · intro h
    cases hl : p.deck.getLast? with
    | none => exact absurd (List.getLast?_eq_none_iff.mp hl) h
    | some c =>
      refine ⟨c, rfl, ?_, ?_⟩
      · simp [drawDo, hl]
      · simp [drawDo, hl, PlayerSt.drawCard]

/-- C8 witness: the empty-deck player fatigues; the two-card player draws
the top card (id 2) into the hand. -/
theorem c8_witness :
    (drawDo pEmptyDeck = (pEmptyDeck.fatigue, DrawResult.fatigued, []) ∧
      (drawDo pEmptyDeck).1.fatigueCount = pEmptyDeck.fatigueCount + 1) ∧
    (∃ c, pFullDeck.deck.getLast? = some c ∧
      drawDo pFullDeck = (pFullDeck.drawCard c, DrawResult.drew c, [c]) ∧
      c ∈ (drawDo pFullDeck).1.hand) :=
  ⟨(c8_draw_fatigue pEmptyDeck).1 rfl, (c8_draw_fatigue pFullDeck).2 (by decide)⟩

/-! ## Claim C9 -/

/-- C9 counterexample: `SelfSelector.eval` ignores the input collection and
returns `[source]`, so evaluating `SELF` over an empty input collection
yields `[5]`, not the empty result the claim requires of every selector
(and `TARGET` behaves likewise). -/
theorem c9_counterexample :
    SelfSelector.eval ([] : List Nat) 5 = [5] ∧
      TargetSelector.eval ([] : List Nat) 9 = [9] ∧
      ¬ SelfSelector.eval ([] : List Nat) 5 = [] := by
  refine ⟨rfl, rfl, ?_⟩
  decide

/-- C9 (amended): selectors evaluated through the generic `Selector.eval`
return the empty result immediately on an empty input collection — for
*every* program, so no predicate is consulted — and generic evaluation of a
well-formed plain program never raises on any input, including a
fully-filtered-out one (it returns a result).  The special-cased selectors
are the exception the claim missed: `SELF` and `TARGET` override `eval` and
return their designated singleton regardless of the input collection, even
on empty input. -/
theorem c9_amended_empty_eval {ε : Type} [DecidableEq ε] (adj : ε → List ε) :
    (∀ (p : List (Op ε)) (src : ε) (r : List Nat),
      Sel.eval ⟨p⟩ adj [] src r = some ([], r)) ∧
    (∀ (entities : List ε) (source : ε),
      SelfSelector.eval entities source = [source]) ∧
    (∀ (entities : List ε) (sourceTarget : ε),
      TargetSelector.eval entities sourceTarget = [sourceTarget]) ∧
    (∀ (s : Sel ε) (entities : List ε) (src : ε) (r : List Nat) (f : ε → Bool),
      isPlain s.program = true →
      (∀ x ∈ entities, testVal x src s.program [] = some (f x)) →
      ∃ out, s.eval adj entities src r = some (out, r)) := by
  refine ⟨fun p src r => rfl, fun _ _ => rfl, fun _ _ => rfl, ?_⟩
  intro s entities src r f hp hf
  cases hne : s.program with
  | nil =>
    cases entities with
    | nil => exact ⟨[], by simp [Sel.eval]⟩
    | cons e es =>
      have hcon := hf e (by simp)
      rw [hne] at hcon
      simp [testVal] at hcon
  | cons op rest =>
    exact ⟨entities.filter f,
      Sel.eval_plain s adj entities src r f hp (by rw [hne]; simp) hf⟩

/-- C9 witness: generic evaluation of a plain selector over a nonempty
input returns a result (no raise), via the amended theorem. -/
theorem c9_witness :
    ∃ out, Sel.eval c4A (fun _ => ([] : List Nat)) [1, 2] 0 [] = some (out, []) :=
  (c9_amended_empty_eval (fun _ => ([] : List Nat))).2.2.2 c4A [1, 2] 0 []
    (fun e => decide (e % 2 = 0)) rfl (fun _ _ => rfl)

/-! ## Claim C10 -/

/-- C10 (confirmed): `R | v` on a random selector does not build a
set-union selector: it installs `v` as the `SelectRandom` fallback and
returns the selector itself, leaving base program, sample size and program
length untouched (rather than growing the program as `Selector.__or__`
concatenation would); evaluating the result on a state whose filtered
candidate set is empty yields the singleton `[v]`. -/
theorem c10_random_or_fallback {ε : Type} [DecidableEq ε] (R : RandomSel ε)
    (v : ε) (adj : ε → List ε) (entities : List ε) (src : ε) (r : List Nat)
    (hp : isPlain R.base = true) (hne : entities ≠ [])
    (hb : ∀ e ∈ entities, ∃ w, runP e src R.base [] = some [w])
    (hfe : entities.filter (progTest R.base src) = []) :
    (R.or v).base = R.base ∧ (R.or v).times = R.times ∧
    (R.or v).fallback = some v ∧
    (R.or v).program.length = R.program.length ∧
    (R.or v).toSel.eval adj entities src r = some ([v], r) := by
  refine ⟨rfl, rfl, rfl, ?_, ?_⟩
  · simp [RandomSel.or, RandomSel.program]
  · exact Sel.eval_rand_fb (R.or v) adj entities src r v hp hne hb rfl hfe

/-- C10 witness: the fallback behaviour at the concrete selector `c10Rand`
(matching nothing in `[1, 2]`) with fallback `99`. -/
theorem c10_witness :
    (c10Rand.or 99).base = c10Rand.base ∧
    (c10Rand.or 99).times = c10Rand.times ∧
    (c10Rand.or 99).fallback = some 99 ∧
    (c10Rand.or 99).program.length = c10Rand.program.length ∧
    (c10Rand.or 99).toSel.eval (fun _ => []) [1, 2] 0 [] = some ([99], []) :=
  c10_random_or_fallback c10Rand 99 (fun _ => []) [1, 2] 0 [] rfl (by decide)
    (fun e _ => ⟨_, rfl⟩) (by decide)

end Fireplace
